import Mathlib

/-
Verification of the ICNR initialization core of `torchlayers` (`upsample.py`,
class `Conv2dPixelShuffle`).

Tensors are embedded shallowly as a shape (list of dimension sizes) together
with the flat row-major element list, matching PyTorch's contiguous layout.
Every tensor operation used by the source (`transpose(0, 1)`, `reshape` with a
single inferred `-1` dimension, `repeat(1, 1, m)`, `torch.zeros`) is translated
from its PyTorch semantics on contiguous tensors; `reshape` with an inferred
dimension is fallible (PyTorch raises when the inferred size is ambiguous or
fractional), so it returns an `Option`.
-/

namespace Torchlayers

/-- A contiguous row-major tensor: dimension sizes plus the flat element list. -/
structure Tensor (α : Type) where
  shape : List Nat
  data : List α
deriving DecidableEq, Repr

/-- Number of elements determined by the shape (PyTorch `numel`). -/
def Tensor.numel (t : Tensor α) : Nat := t.shape.prod

/-- Well-formedness: the flat data has exactly `numel` elements. -/
def Tensor.WF (t : Tensor α) : Prop := t.data.length = t.shape.prod

/-- `torch.zeros(shape)`: a zero-filled tensor of the given shape. -/
def zerosT (α : Type) [Zero α] (shape : List Nat) : Tensor α :=
  ⟨shape, List.replicate shape.prod 0⟩

/-- `t.transpose(0, 1)` for a tensor of dimension at least 2 (the only form the
source uses), materialized as a contiguous row-major copy: element `(j, i, k)`
of the result is element `(i, j, k)` of `t`, where `k` ranges over the flat
index of the trailing dimensions.  (PyTorch returns a view; the views in the
source are always consumed by `reshape`, which copies to contiguous order, so
materializing eagerly is observationally identical.) -/
def transpose01 [Inhabited α] (t : Tensor α) : Tensor α :=
  let d0 := t.shape.headD 0
  let d1 := t.shape.tail.headD 0
  let rest := t.shape.drop 2
  let R := rest.prod
  ⟨d1 :: d0 :: rest,
    (List.range (d1 * (d0 * R))).map fun n =>
      t.data.getD ((n % (d0 * R) / R * d1 + n / (d0 * R)) * R + n % R) default⟩

/-- `t.repeat(1, 1, m)` for a 3-dimensional tensor (the only form the source
uses): tiles the last axis `m` times, so element `(i, j, k)` of the result is
element `(i, j, k % c)` of `t`. -/
def repeatLast [Inhabited α] (t : Tensor α) (m : Nat) : Tensor α :=
  match t.shape with
  | [a, b, c] =>
      ⟨[a, b, c * m],
        (List.range (a * (b * (c * m)))).map fun n =>
          t.data.getD (n / (c * m) * c + n % (c * m) % c) default⟩
  | _ => t

/-- `t.reshape(s0, s1, -1)`: PyTorch infers the last dimension as
`numel / (s0 * s1)` and raises (`none`) when `s0 * s1` is zero (the inferred
size is ambiguous) or does not divide `numel`.  The data of a contiguous
tensor is unchanged. -/
def reshape3InferLast (t : Tensor α) (s0 s1 : Nat) : Option (Tensor α) :=
  if s0 * s1 = 0 then none
  else if s0 * s1 ∣ t.numel then some ⟨[s0, s1, t.numel / (s0 * s1)], t.data⟩
  else none

/-- `t.reshape([-1] + dims)`: PyTorch infers the leading dimension as
`numel / dims.prod` and raises (`none`) when `dims.prod` is zero or does not
divide `numel`. -/
def reshapeInferFirst (t : Tensor α) (dims : List Nat) : Option (Tensor α) :=
  if dims.prod = 0 then none
  else if dims.prod ∣ t.numel then some ⟨t.numel / dims.prod :: dims, t.data⟩
  else none

/-- `Conv2dPixelShuffle.icnr_initialization` (src/torchlayers/upsample.py lines
75-110), with `upscale_factor` the value stored by `__init__` in the
`PixelShuffle` submodule and `init` the base initializer stored by `__init__`.
A raised exception is modelled as `none`: the two `reshape` calls can raise,
and for `upscale_factor = 0` Python's `int(tensor.shape[0] / upscale_factor ** 2)`
raises `ZeroDivisionError`.  For positive arguments Python's
`int(shape[0] / r2)` is truncating division, i.e. `Nat` division. -/
def icnr_initialization [Inhabited α] [Zero α] (upscale_factor : Nat)
    (init : Tensor α → Tensor α) (tensor : Tensor α) : Option (Tensor α) :=
  if upscale_factor = 1 then some (init tensor)
  else if upscale_factor = 0 then none
  else
    let subkernel := transpose01 (init (zerosT α
      (tensor.shape.headD 0 / upscale_factor ^ 2 :: tensor.shape.tail)))
    (reshape3InferLast subkernel (subkernel.shape.headD 0)
        (subkernel.shape.tail.headD 0)).bind
      fun kernel =>
        (reshapeInferFirst (repeatLast kernel (upscale_factor ^ 2))
          (tensor.shape.headD 0 :: tensor.shape.drop 2)).map transpose01

/-- State-instrumented version of `icnr_initialization`, additionally returning
the contents of the argument tensor after the call.  In the source the argument
tensor is touched only in the `upscale_factor == 1` branch, where it is passed
to the base initializer (which may update it in place, e.g.
`torch.nn.init.kaiming_normal_`); `initEff` is that in-place effect.  In the
`upscale_factor != 1` branch the argument is only read (`tensor.shape`), so it
is returned unchanged. -/
def icnr_initialization_state [Inhabited α] [Zero α] (upscale_factor : Nat)
    (init initEff : Tensor α → Tensor α) (tensor : Tensor α) :
    Tensor α × Option (Tensor α) :=
  (if upscale_factor = 1 then initEff tensor else tensor,
   icnr_initialization upscale_factor init tensor)

/-- `Conv2dPixelShuffle.post_build` (src/torchlayers/upsample.py lines 73-74):
`self.icnr_initialization(self.convolution.weight.data)` — the returned tensor
is discarded, so the weight after the call is only whatever in-place effect the
base initializer had on it (`initEff`, as in `icnr_initialization_state`).
The result is the convolution weight after `post_build` returns. -/
def post_build [Inhabited α] [Zero α] (upscale_factor : Nat)
    (init initEff : Tensor α → Tensor α) (weight : Tensor α) : Tensor α :=
  (icnr_initialization_state upscale_factor init initEff weight).1

/-- Modelled from the spec: the configuration produced by `__init__`
(src/torchlayers/upsample.py lines 41-71).  The two construction-time
collaborators — `convolution.Conv` (a module of this repository that is not
among the sources) and `torch.nn.PixelShuffle` — are specified by the spec
only through their interfaces, with no constructor validation of their own
(§1 lists construction-time parameter validation as out of scope, §2 calls
both "externally supplied").  `__init__` itself performs no parameter checks:
it forwards `out_channels * upscale_factor * upscale_factor` to the
convolution and stores the upscale factor and the base initializer. -/
structure ModuleConfig where
  in_channels : Int
  conv_out_channels : Int
  upscale_factor : Int
deriving DecidableEq, Repr

/-- Modelled from the spec: construction (`__init__`) of `Conv2dPixelShuffle`,
returning `Except` so that a construction-time failure is representable.  The
source contains no validation and no failing operation, so every argument
combination constructs successfully. -/
def Conv2dPixelShuffle_construct (in_channels out_channels upscale_factor : Int) :
    Except String ModuleConfig :=
  .ok ⟨in_channels, out_channels * upscale_factor * upscale_factor, upscale_factor⟩

/-- The spec's reference step sequence for ICNR initialization (§4.1, steps
1-7), for a weight tensor of shape `[O, I, kH, kW]`:
1. `reduced_out = O / r²`;
2. sub-kernel of shape `[reduced_out, I, kH, kW]` from the base initializer
   applied to a zero-filled tensor of that shape;
3. transpose the first two axes;
4. flatten the trailing spatial dimensions into one axis
   (shape `[I, reduced_out, kH*kW]`, data unchanged for a contiguous tensor);
5. tile `r²` times along the last axis;
6. reshape to `[-1, O, kH, kW]` (the inferred dimension resolves to `I` when
   `r² ∣ O`) and transpose axes 0 and 1. -/
def icnr_reference [Inhabited α] [Zero α] (r : Nat)
    (init : Tensor α → Tensor α) (t : Tensor α) : Tensor α :=
  match t.shape with
  | [O, I, kH, kW] =>
      let red := O / r ^ 2
      let S := init (zerosT α [red, I, kH, kW])
      let sub := transpose01 S
      let flat : Tensor α := ⟨[I, red, kH * kW], sub.data⟩
      let tiled := repeatLast flat (r ^ 2)
      let reshaped : Tensor α := ⟨[I, O, kH, kW], tiled.data⟩
      transpose01 reshaped
  | _ => t

/-! Concrete tensors and base initializers used in witnesses and
counterexamples. -/

/-- A shape-preserving base initializer filling every element with `1`. -/
def fillOnes (u : Tensor Int) : Tensor Int :=
  ⟨u.shape, List.replicate u.shape.prod 1⟩

/-- The base initializer of the spec's concrete scenario (§8): fills output
channel `c` (index along the first axis) with the value `c + 1`, so channel 0
gets `1` and channel 1 gets `2`. -/
def channelFill (u : Tensor Int) : Tensor Int :=
  ⟨u.shape, (List.range u.shape.prod).map fun n =>
    ((n / u.shape.tail.prod : Nat) : Int) + 1⟩

/-- A concrete weight tensor of shape `[4, 1, 1, 1]` filled with `5`. -/
def w0 : Tensor Int := ⟨[4, 1, 1, 1], [5, 5, 5, 5]⟩

/-- A tensor with the same shape as `w0` but different contents. -/
def wAlt : Tensor Int := ⟨[4, 1, 1, 1], [7, 8, 9, 10]⟩

/-- The ICNR result for `w0` with `fillOnes` and upscale factor 2. -/
def wIcnr : Tensor Int := ⟨[4, 1, 1, 1], [1, 1, 1, 1]⟩

/-- The spec's concrete-scenario input: shape `[8, 3, 3, 3]` (`O = 8`, `I = 3`,
`kH = kW = 3`), contents irrelevant. -/
def t8 : Tensor Int := ⟨[8, 3, 3, 3], List.replicate 216 0⟩

/-- Expected concrete-scenario output: channels 0-3 constantly `1`,
channels 4-7 constantly `2` (each channel slice has `3 * 3 * 3 = 27`
elements). -/
def t8Expected : Tensor Int :=
  ⟨[8, 3, 3, 3], List.replicate 108 1 ++ List.replicate 108 2⟩

/-- A weight tensor whose channel count 7 is not divisible by `2² = 4`. -/
def t7 : Tensor Int := ⟨[7, 3, 1, 1], List.replicate 21 0⟩

/-- A weight tensor whose channel count 6 is not divisible by `2² = 4`, but for
which the truncated reshape happens to succeed. -/
def t6 : Tensor Int := ⟨[6, 3, 1, 1], List.replicate 18 0⟩

/-! Helper lemmas: index arithmetic and the evaluation of the
`icnr_initialization` pipeline for `2 ≤ r`. -/

/-- Reading a mapped range at an in-bounds position. -/
theorem getD_range_map {α : Type} (f : Nat → α) {n i : Nat} (h : i < n) (d : α) :
    ((List.range n).map f).getD i d = f i := by
  rw [List.getD_eq_getElem?_getD, List.getElem?_map, List.getElem?_range h]
  rfl

/-- Quotient of a row-major index by its row size. -/
theorem mulAdd_div (x z : Nat) {y : Nat} (hy : 0 < y) (hz : z < y) :
    (x * y + z) / y = x := by
  rw [Nat.add_comm, Nat.add_mul_div_right _ _ hy, Nat.div_eq_of_lt hz,
    Nat.zero_add]

/-- Remainder of a row-major index by its row size. -/
theorem mulAdd_mod (x z : Nat) {y : Nat} (hz : z < y) : (x * y + z) % y = z := by
  rw [Nat.add_comm, Nat.add_mul_mod_self_right, Nat.mod_eq_of_lt hz]

/-- Bound on a row-major index. -/
theorem mulAdd_lt {x X z y : Nat} (hx : x < X) (hz : z < y) :
    x * y + z < X * y := by
  calc x * y + z < x * y + y := by omega
    _ = (x + 1) * y := by ring
    _ ≤ X * y := Nat.mul_le_mul_right y hx

/-- Bound on a row-major index, commuted form. -/
theorem mulAdd_lt' {x X z y : Nat} (hx : x < X) (hz : z < y) :
    x * y + z < y * X := by
  calc x * y + z < X * y := mulAdd_lt hx hz
    _ = y * X := Nat.mul_comm X y

/-- Unfolding `icnr_initialization` for `2 ≤ r` on a 4-dimensional input of
shape `[O, I, kH, kW]`: the pipeline is the two reshapes around the repeat,
applied to the transposed initialized sub-kernel. -/
theorem icnr_unfold {α : Type} [Inhabited α] [Zero α] (r O I kH kW : Nat)
    (init : Tensor α → Tensor α) (t : Tensor α)
    (hr : 2 ≤ r) (hsh : t.shape = [O, I, kH, kW])
    (hshape : ∀ u, (init u).shape = u.shape) :
    icnr_initialization r init t =
      (reshape3InferLast (transpose01 (init (zerosT α [O / r ^ 2, I, kH, kW])))
          I (O / r ^ 2)).bind
        fun kernel =>
          (reshapeInferFirst (repeatLast kernel (r ^ 2)) [O, kH, kW]).map
            transpose01 := by
  have h1 : ¬r = 1 := by omega
  have h0 : ¬r = 0 := by omega
  have hS : (init (zerosT α [O / r ^ 2, I, kH, kW])).shape
      = [O / r ^ 2, I, kH, kW] := hshape _
  have hsub : (transpose01 (init (zerosT α [O / r ^ 2, I, kH, kW]))).shape
      = I :: O / r ^ 2 :: [kH, kW] := by
    simp only [transpose01, hS, List.headD_cons, List.tail_cons,
      List.drop_succ_cons, List.drop_zero]
  simp only [icnr_initialization, if_neg h1, if_neg h0, hsh, List.headD_cons,
    List.tail_cons, List.drop_succ_cons, List.drop_zero, hsub]

/-- For positive `I` and a positive reduced channel count, the first reshape
of the source computes shape `[I, O / r², kH * kW]` keeping the transposed
sub-kernel data. -/
theorem reshape3_eval {α : Type} [Inhabited α] [Zero α] (r O I kH kW : Nat)
    (init : Tensor α → Tensor α)
    (hshape : ∀ u, (init u).shape = u.shape)
    (hI : 0 < I) (hred : 0 < O / r ^ 2) :
    reshape3InferLast (transpose01 (init (zerosT α [O / r ^ 2, I, kH, kW])))
        I (O / r ^ 2)
      = some ⟨[I, O / r ^ 2, kH * kW],
          (transpose01 (init (zerosT α [O / r ^ 2, I, kH, kW]))).data⟩ := by
  have hS : (init (zerosT α [O / r ^ 2, I, kH, kW])).shape
      = [O / r ^ 2, I, kH, kW] := hshape _
  have hsub : (transpose01 (init (zerosT α [O / r ^ 2, I, kH, kW]))).shape
      = [I, O / r ^ 2, kH, kW] := by
    simp only [transpose01, hS, List.headD_cons, List.tail_cons,
      List.drop_succ_cons, List.drop_zero]
  have hpos : 0 < I * (O / r ^ 2) := Nat.mul_pos hI hred
  have hnum : (transpose01 (init (zerosT α [O / r ^ 2, I, kH, kW]))).numel
      = I * (O / r ^ 2) * (kH * kW) := by
    simp only [Tensor.numel, hsub, List.prod_cons, List.prod_nil]
    ring
  unfold reshape3InferLast
  rw [hnum, if_neg hpos.ne', if_pos (dvd_mul_right _ _),
    Nat.mul_div_cancel_left _ hpos]

/-- Evaluation of `icnr_initialization` for `2 ≤ r` up to the final reshape
and transpose. -/
theorem icnr_run {α : Type} [Inhabited α] [Zero α] (r O I kH kW : Nat)
    (init : Tensor α → Tensor α) (t : Tensor α)
    (hr : 2 ≤ r) (hsh : t.shape = [O, I, kH, kW])
    (hshape : ∀ u, (init u).shape = u.shape)
    (hI : 0 < I) (hred : 0 < O / r ^ 2) :
    icnr_initialization r init t =
      (reshapeInferFirst
          (repeatLast ⟨[I, O / r ^ 2, kH * kW],
            (transpose01 (init (zerosT α [O / r ^ 2, I, kH, kW]))).data⟩
            (r ^ 2))
          [O, kH, kW]).map transpose01 := by
  rw [icnr_unfold r O I kH kW init t hr hsh hshape,
    reshape3_eval r O I kH kW init hshape hI hred]
  rfl

/-- For `2 ≤ r`, a weight tensor of positive shape `[O, I, kH, kW]` with
`r² ∣ O`, and a shape-preserving base initializer, `icnr_initialization`
returns exactly the result of the spec's reference step sequence. -/
theorem icnr_eq_ref {α : Type} [Inhabited α] [Zero α] (r O I kH kW : Nat)
    (init : Tensor α → Tensor α) (t : Tensor α)
    (hr : 2 ≤ r) (hsh : t.shape = [O, I, kH, kW])
    (hshape : ∀ u, (init u).shape = u.shape)
    (hO : 0 < O) (hI : 0 < I) (hkH : 0 < kH) (hkW : 0 < kW)
    (hdvd : r ^ 2 ∣ O) :
    icnr_initialization r init t = some (icnr_reference r init t) := by
  have hr2 : 0 < r ^ 2 := by positivity
  have hred : 0 < O / r ^ 2 := Nat.div_pos (Nat.le_of_dvd hO hdvd) hr2
  have hOr : O / r ^ 2 * r ^ 2 = O := Nat.div_mul_cancel hdvd
  have hK : 0 < kH * kW := Nat.mul_pos hkH hkW
  have hdpos : 0 < O * (kH * kW) := Nat.mul_pos hO hK
  rw [icnr_run r O I kH kW init t hr hsh hshape hI hred]
  have hTsh : (repeatLast ⟨[I, O / r ^ 2, kH * kW],
      (transpose01 (init (zerosT α [O / r ^ 2, I, kH, kW]))).data⟩
      (r ^ 2)).shape = [I, O / r ^ 2, kH * kW * r ^ 2] := by
    simp only [repeatLast]
  have hTnum : (repeatLast ⟨[I, O / r ^ 2, kH * kW],
      (transpose01 (init (zerosT α [O / r ^ 2, I, kH, kW]))).data⟩
      (r ^ 2)).numel = O * (kH * kW) * I := by
    rw [Tensor.numel, hTsh]
    simp only [List.prod_cons, List.prod_nil]
    calc I * (O / r ^ 2 * (kH * kW * r ^ 2 * 1))
        = O / r ^ 2 * r ^ 2 * (kH * kW) * I := by ring
      _ = O * (kH * kW) * I := by rw [hOr]
  have hd : ([O, kH, kW] : List Nat).prod = O * (kH * kW) := by
    simp [List.prod_cons, List.prod_nil]
  unfold reshapeInferFirst
  rw [hd, hTnum, if_neg hdpos.ne', if_pos (dvd_mul_right _ _),
    Nat.mul_div_cancel_left _ hdpos]
  simp only [Option.map_some', icnr_reference, hsh]

/-- The reference computation preserves the shape `[O, I, kH, kW]`. -/
theorem ref_shape {α : Type} [Inhabited α] [Zero α] (r O I kH kW : Nat)
    (init : Tensor α → Tensor α) (t : Tensor α)
    (hsh : t.shape = [O, I, kH, kW]) :
    (icnr_reference r init t).shape = [O, I, kH, kW] := by
  simp only [icnr_reference, hsh, transpose01, List.headD_cons, List.tail_cons,
    List.drop_succ_cons, List.drop_zero]

/-- Closed form of the reference computation's values: for a weight tensor of
shape `[O, I, kH, kW]` with `r² ∣ O`, element `(o, i, h, w)` of the result is
element `(o / r², i, h, w)` of the initialized sub-kernel — the whole block of
`r²` consecutive output channels shares the sub-kernel slice of its final
output channel. -/
theorem ref_getD {α : Type} [Inhabited α] [Zero α] (r O I kH kW : Nat)
    (init : Tensor α → Tensor α) (t : Tensor α)
    (hsh : t.shape = [O, I, kH, kW])
    (hshape : ∀ u, (init u).shape = u.shape)
    (hr2 : 0 < r ^ 2) (hdvd : r ^ 2 ∣ O)
    (o i h w : Nat) (ho : o < O) (hi : i < I) (hh : h < kH) (hw : w < kW) :
    (icnr_reference r init t).data.getD (((o * I + i) * kH + h) * kW + w)
        default
      = (init (zerosT α [O / r ^ 2, I, kH, kW])).data.getD
          (((o / r ^ 2 * I + i) * kH + h) * kW + w) default := by
  have hIpos : 0 < I := by omega
  have hkHpos : 0 < kH := by omega
  have hkWpos : 0 < kW := by omega
  have hK : 0 < kH * kW := Nat.mul_pos hkHpos hkWpos
  have hIK : 0 < I * (kH * kW) := Nat.mul_pos hIpos hK
  have hOr : O / r ^ 2 * r ^ 2 = O := Nat.div_mul_cancel hdvd
  have hq : o / r ^ 2 < O / r ^ 2 := Nat.div_lt_div_of_lt_of_dvd hdvd ho
  have hred : 0 < O / r ^ 2 := lt_of_le_of_lt (Nat.zero_le _) hq
  have hs : o % r ^ 2 < r ^ 2 := Nat.mod_lt _ hr2
  have hqs : r ^ 2 * (o / r ^ 2) + o % r ^ 2 = o := Nat.div_add_mod o (r ^ 2)
  have hS : (init (zerosT α [O / r ^ 2, I, kH, kW])).shape
      = [O / r ^ 2, I, kH, kW] := hshape _
  have hk : h * kW + w < kH * kW := mulAdd_lt hh hw
  simp only [icnr_reference, hsh, transpose01, repeatLast, hS, List.headD_cons,
    List.tail_cons, List.drop_succ_cons, List.drop_zero, List.prod_cons,
    List.prod_nil, mul_one]
  -- stage 1: the outer transpose
  have hrem1 : i * (kH * kW) + (h * kW + w) < I * (kH * kW) := mulAdd_lt hi hk
  have hn1 : ((o * I + i) * kH + h) * kW + w
      = o * (I * (kH * kW)) + (i * (kH * kW) + (h * kW + w)) := by ring
  have hb1 : ((o * I + i) * kH + h) * kW + w < O * (I * (kH * kW)) := by
    rw [hn1]; exact mulAdd_lt ho hrem1
  have e1 : (((o * I + i) * kH + h) * kW + w) / (I * (kH * kW)) = o := by
    rw [hn1]; exact mulAdd_div o _ hIK hrem1
  have e2 : (((o * I + i) * kH + h) * kW + w) % (I * (kH * kW))
      = i * (kH * kW) + (h * kW + w) := by
    rw [hn1]; exact mulAdd_mod o _ hrem1
  have e3 : (i * (kH * kW) + (h * kW + w)) / (kH * kW) = i :=
    mulAdd_div i _ hK hk
  have e4 : (((o * I + i) * kH + h) * kW + w) % (kH * kW) = h * kW + w := by
    have hn2 : ((o * I + i) * kH + h) * kW + w
        = (o * I + i) * (kH * kW) + (h * kW + w) := by ring
    rw [hn2]; exact mulAdd_mod _ _ hk
  simp only [getD_range_map _ hb1]
  rw [e2, e3, e1, e4]
  -- stage 2: the tiling (repeat) step
  have hm2 : (i * O + o) * (kH * kW) + (h * kW + w)
      = (i * (O / r ^ 2) + o / r ^ 2) * (kH * kW * r ^ 2)
        + (o % r ^ 2 * (kH * kW) + (h * kW + w)) := by
    conv_lhs => rw [← hOr, ← hqs]
    ring
  have hrem2 : o % r ^ 2 * (kH * kW) + (h * kW + w) < kH * kW * r ^ 2 :=
    mulAdd_lt' hs hk
  have hKr2 : 0 < kH * kW * r ^ 2 := Nat.mul_pos hK hr2
  have hrow2 : i * (O / r ^ 2) + o / r ^ 2 < I * (O / r ^ 2) := mulAdd_lt hi hq
  have hb2 : (i * O + o) * (kH * kW) + (h * kW + w)
      < I * (O / r ^ 2 * (kH * kW * r ^ 2)) := by
    rw [hm2]
    conv_rhs => rw [← Nat.mul_assoc]
    exact mulAdd_lt hrow2 hrem2
  have e5 : ((i * O + o) * (kH * kW) + (h * kW + w)) / (kH * kW * r ^ 2)
      = i * (O / r ^ 2) + o / r ^ 2 := by
    rw [hm2]; exact mulAdd_div _ _ hKr2 hrem2
  have e6 : ((i * O + o) * (kH * kW) + (h * kW + w)) % (kH * kW * r ^ 2)
      = o % r ^ 2 * (kH * kW) + (h * kW + w) := by
    rw [hm2]; exact mulAdd_mod _ _ hrem2
  have e7 : (o % r ^ 2 * (kH * kW) + (h * kW + w)) % (kH * kW) = h * kW + w :=
    mulAdd_mod _ _ hk
  simp only [getD_range_map _ hb2]
  rw [e5, e6, e7]
  -- stage 3: the inner transpose of the sub-kernel
  have hp : (i * (O / r ^ 2) + o / r ^ 2) * (kH * kW) + (h * kW + w)
      = i * (O / r ^ 2 * (kH * kW))
        + (o / r ^ 2 * (kH * kW) + (h * kW + w)) := by ring
  have hrem3 : o / r ^ 2 * (kH * kW) + (h * kW + w) < O / r ^ 2 * (kH * kW) :=
    mulAdd_lt hq hk
  have hredK : 0 < O / r ^ 2 * (kH * kW) := Nat.mul_pos hred hK
  have hb3 : (i * (O / r ^ 2) + o / r ^ 2) * (kH * kW) + (h * kW + w)
      < I * (O / r ^ 2 * (kH * kW)) := by
    rw [hp]; exact mulAdd_lt hi hrem3
  have e8 : ((i * (O / r ^ 2) + o / r ^ 2) * (kH * kW) + (h * kW + w))
      / (O / r ^ 2 * (kH * kW)) = i := by
    rw [hp]; exact mulAdd_div _ _ hredK hrem3
  have e9 : ((i * (O / r ^ 2) + o / r ^ 2) * (kH * kW) + (h * kW + w))
      % (O / r ^ 2 * (kH * kW))
      = o / r ^ 2 * (kH * kW) + (h * kW + w) := by
    rw [hp]; exact mulAdd_mod _ _ hrem3
  have e10 : (o / r ^ 2 * (kH * kW) + (h * kW + w)) / (kH * kW) = o / r ^ 2 :=
    mulAdd_div _ _ hK hk
  have e11 : ((i * (O / r ^ 2) + o / r ^ 2) * (kH * kW) + (h * kW + w))
      % (kH * kW) = h * kW + w := mulAdd_mod _ _ hk
  simp only [getD_range_map _ hb3]
  rw [e9, e10, e8, e11]
  congr 1
  ring

/-! Claim theorems. -/

/-- Claim C4: for `upscale_factor == 1`, `icnr_initialization` returns exactly
`init tensor` — a direct call to the base initializer with no reshaping — for
every input tensor and every base initializer. -/
theorem icnr_upscale_one {α : Type} [Inhabited α] [Zero α]
    (init : Tensor α → Tensor α) (t : Tensor α) :
    icnr_initialization 1 init t = some (init t) := by
  simp [icnr_initialization]

/-- Claim C9: given a base initializer that is side-effect-free on its input
(`initEff` is the identity), `icnr_initialization` leaves the input tensor's
contents unchanged, for every upscale factor and every input tensor. -/
theorem icnr_no_input_mutation {α : Type} [Inhabited α] [Zero α]
    (upscale_factor : Nat) (init initEff : Tensor α → Tensor α) (t : Tensor α)
    (heff : ∀ u, initEff u = u) :
    (icnr_initialization_state upscale_factor init initEff t).1 = t := by
  by_cases h : upscale_factor = 1 <;>
    simp [icnr_initialization_state, h, heff]

/-- Witness for C9 at a concrete input: upscale factor 1 (the only branch that
touches the input at all), base initializer `fillOnes` with identity in-place
effect, input `w0`. -/
theorem icnr_no_input_mutation_witness :
    (icnr_initialization_state 1 fillOnes (fun x => x) w0).1 = w0 :=
  icnr_no_input_mutation 1 fillOnes (fun x => x) w0 (fun _ => rfl)

/-- Claim C10: for every upscale factor `r > 1`, the result of
`icnr_initialization` depends only on the shape of the input tensor (and the
base initializer), never on the input tensor's element values. -/
theorem icnr_shape_only {α : Type} [Inhabited α] [Zero α] (r : Nat)
    (init : Tensor α → Tensor α) (t t' : Tensor α)
    (hr : 2 ≤ r) (hsh : t.shape = t'.shape) :
    icnr_initialization r init t = icnr_initialization r init t' := by
  have h1 : ¬r = 1 := by omega
  have h0 : ¬r = 0 := by omega
  simp only [icnr_initialization, if_neg h1, if_neg h0, hsh]

/-- Witness for C10 at a concrete input: `w0` and `wAlt` share the shape
`[4, 1, 1, 1]` but have different contents; the results coincide. -/
theorem icnr_shape_only_witness :
    icnr_initialization 2 fillOnes w0 = icnr_initialization 2 fillOnes wAlt :=
  icnr_shape_only 2 fillOnes w0 wAlt (by decide) rfl

/-- Claim C1 (code bug): `post_build` discards the tensor returned by
`icnr_initialization` instead of writing it into the convolution weight.  At
upscale factor 2 with the side-effect-free base initializer `fillOnes` and
weight `w0` (shape `[4, 1, 1, 1]`, satisfying `2² ∣ 4`), the weight after
`post_build` still holds its arbitrary construction-time values `[5, 5, 5, 5]`,
while `icnr_initialization` returned the different tensor `wIcnr`. -/
theorem post_build_discards_icnr :
    post_build 2 fillOnes (fun x => x) w0 = w0 ∧
      icnr_initialization 2 fillOnes w0 = some wIcnr ∧ w0 ≠ wIcnr := by
  refine ⟨rfl, ?_, by decide⟩
  decide

/-- Claim C8 (counterexample): constructing the module with
`upscale_factor = 0` does not fail — `__init__` performs no validation, and
construction returns a module configuration (with `0` expanded output
channels). -/
theorem construct_zero_upscale_ok :
    Conv2dPixelShuffle_construct 3 5 0 = .ok ⟨3, 0, 0⟩ := rfl

/-- Claim C8 (amended): for every `upscale_factor ≤ 0`, construction succeeds
without an error — the source performs no construction-time validation of
`upscale_factor`. -/
theorem construct_no_validation (i o u : Int) (_hu : u ≤ 0) :
    (Conv2dPixelShuffle_construct i o u).isOk = true := rfl

/-- Witness for the amended C8 at a concrete input: `upscale_factor = -2`. -/
theorem construct_no_validation_witness :
    (Conv2dPixelShuffle_construct 3 5 (-2)).isOk = true :=
  construct_no_validation 3 5 (-2) (by decide)

/-- Claim C2: for every upscale factor `r > 1` and every weight tensor of
shape `[O, I, kH, kW]` (positive dimensions) with `r² ∣ O`, the tensor
returned by `icnr_initialization` — grouping the output-channel axis into
contiguous blocks of size `r²` — has all slices within each block element-wise
identical: whenever `o₁ / r² = o₂ / r²`, element `(o₁, i, h, w)` equals
element `(o₂, i, h, w)`. -/
theorem icnr_uniformity {α : Type} [Inhabited α] [Zero α] (r O I kH kW : Nat)
    (init : Tensor α → Tensor α) (t : Tensor α)
    (hr : 2 ≤ r) (hsh : t.shape = [O, I, kH, kW]) (hdvd : r ^ 2 ∣ O)
    (hO : 0 < O) (hI : 0 < I) (hkH : 0 < kH) (hkW : 0 < kW)
    (hshape : ∀ u, (init u).shape = u.shape) :
    ∃ out, icnr_initialization r init t = some out ∧
      ∀ o₁ o₂ i h w, o₁ < O → o₂ < O → o₁ / r ^ 2 = o₂ / r ^ 2 →
        i < I → h < kH → w < kW →
        out.data.getD (((o₁ * I + i) * kH + h) * kW + w) default
          = out.data.getD (((o₂ * I + i) * kH + h) * kW + w) default := by
  refine ⟨icnr_reference r init t,
    icnr_eq_ref r O I kH kW init t hr hsh hshape hO hI hkH hkW hdvd, ?_⟩
  intro o₁ o₂ i h w ho₁ ho₂ hblk hi hh hw
  have hr2 : 0 < r ^ 2 := by positivity
  rw [ref_getD r O I kH kW init t hsh hshape hr2 hdvd o₁ i h w ho₁ hi hh hw,
    ref_getD r O I kH kW init t hsh hshape hr2 hdvd o₂ i h w ho₂ hi hh hw,
    hblk]

/-- Witness for C2 at a concrete input: `r = 2`, shape `[4, 1, 1, 1]`,
base initializer `fillOnes`. -/
theorem icnr_uniformity_witness :
    ∃ out, icnr_initialization 2 fillOnes wAlt = some out ∧
      ∀ o₁ o₂ i h w, o₁ < 4 → o₂ < 4 → o₁ / 2 ^ 2 = o₂ / 2 ^ 2 →
        i < 1 → h < 1 → w < 1 →
        out.data.getD (((o₁ * 1 + i) * 1 + h) * 1 + w) default
          = out.data.getD (((o₂ * 1 + i) * 1 + h) * 1 + w) default :=
  icnr_uniformity 2 4 1 1 1 fillOnes wAlt (by decide) rfl (by decide)
    (by decide) (by decide) (by decide) (by decide) (fun _ => rfl)

/-- Claim C3: for every upscale factor `r > 1` and every weight tensor of
shape `[O, I, kH, kW]` (positive dimensions) with `r² ∣ O`, the tensor
returned by `icnr_initialization` equals the result of the spec's reference
step sequence `icnr_reference` (sub-kernel from the base initializer on a
zero-filled tensor of shape `[O/r², I, kH, kW]`, transpose of the first two
axes, flattening of the spatial axes, tiling `r²` times along the last axis,
reshape to `[-1, O, kH, kW]`, transpose of axes 0 and 1). -/
theorem icnr_matches_spec_steps {α : Type} [Inhabited α] [Zero α]
    (r O I kH kW : Nat) (init : Tensor α → Tensor α) (t : Tensor α)
    (hr : 2 ≤ r) (hsh : t.shape = [O, I, kH, kW]) (hdvd : r ^ 2 ∣ O)
    (hO : 0 < O) (hI : 0 < I) (hkH : 0 < kH) (hkW : 0 < kW)
    (hshape : ∀ u, (init u).shape = u.shape) :
    icnr_initialization r init t = some (icnr_reference r init t) :=
  icnr_eq_ref r O I kH kW init t hr hsh hshape hO hI hkH hkW hdvd

/-- Witness for C3 at a concrete input: `r = 2`, shape `[4, 1, 1, 1]`,
base initializer `fillOnes`. -/
theorem icnr_matches_spec_steps_witness :
    icnr_initialization 2 fillOnes w0 = some (icnr_reference 2 fillOnes w0) :=
  icnr_matches_spec_steps 2 4 1 1 1 fillOnes w0 (by decide) rfl (by decide)
    (by decide) (by decide) (by decide) (by decide) (fun _ => rfl)

/-- Claim C6: for every positive shape `[O, I, kH, kW]`, every positive
upscale factor `r` with `r² ∣ O`, and every shape-preserving base
initializer, `icnr_initialization` returns a tensor of exactly the input
tensor's shape. -/
theorem icnr_shape_preservation {α : Type} [Inhabited α] [Zero α]
    (r O I kH kW : Nat) (init : Tensor α → Tensor α) (t : Tensor α)
    (hr : 1 ≤ r) (hsh : t.shape = [O, I, kH, kW]) (hdvd : r ^ 2 ∣ O)
    (hO : 0 < O) (hI : 0 < I) (hkH : 0 < kH) (hkW : 0 < kW)
    (hshape : ∀ u, (init u).shape = u.shape) :
    ∃ out, icnr_initialization r init t = some out ∧ out.shape = t.shape := by
  rcases Nat.lt_or_ge r 2 with h2 | h2
  · have h1 : r = 1 := by omega
    subst h1
    exact ⟨init t, by simp [icnr_initialization], by rw [hshape]⟩
  · refine ⟨icnr_reference r init t,
      icnr_eq_ref r O I kH kW init t h2 hsh hshape hO hI hkH hkW hdvd, ?_⟩
    rw [ref_shape r O I kH kW init t hsh, hsh]

/-- Witness for C6 at a concrete input: `r = 2`, shape `[4, 1, 1, 1]`,
base initializer `fillOnes`. -/
theorem icnr_shape_preservation_witness :
    ∃ out, icnr_initialization 2 fillOnes wIcnr = some out ∧
      out.shape = wIcnr.shape :=
  icnr_shape_preservation 2 4 1 1 1 fillOnes wIcnr (by decide) rfl (by decide)
    (by decide) (by decide) (by decide) (by decide) (fun _ => rfl)

/-- Claim C7 (counterexample to "raises no error"): for the weight tensor of
shape `[7, 3, 1, 1]` and `r = 2` (`7` not divisible by `4`), the call fails:
the truncated sub-kernel has `3·1·1·1·4 = 12` elements after tiling, and the
final `reshape([-1, 7, 1, 1])` cannot infer the leading dimension
(`7 ∤ 12`), so PyTorch raises instead of returning silently. -/
theorem icnr_nondivisible_raises :
    icnr_initialization 2 fillOnes t7 = none := by decide

/-- Claim C7 (amended): for every upscale factor `r > 1` and every weight
tensor of shape `[O, I, kH, kW]` (with `I`, `kH`, `kW` positive) whose
channel count `O` is not divisible by `r²`, the reduced-shape computation
truncates by integer division and `icnr_initialization` never yields a tensor
with the original element count: either the final reshape fails (an error is
raised), or a tensor whose total element count differs from the original's is
silently returned. -/
theorem icnr_nondivisible_size_mismatch {α : Type} [Inhabited α] [Zero α]
    (r O I kH kW : Nat) (init : Tensor α → Tensor α) (t : Tensor α)
    (hr : 2 ≤ r) (hsh : t.shape = [O, I, kH, kW]) (hndvd : ¬r ^ 2 ∣ O)
    (hI : 0 < I) (hkH : 0 < kH) (hkW : 0 < kW)
    (hshape : ∀ u, (init u).shape = u.shape) :
    (icnr_initialization r init t).map Tensor.numel ≠ some t.numel := by
  have hO : 0 < O := by
    rcases Nat.eq_zero_or_pos O with h | h
    · exact absurd (h ▸ dvd_zero (r ^ 2)) hndvd
    · exact h
  have hK : 0 < kH * kW := Nat.mul_pos hkH hkW
  have hdpos : 0 < O * (kH * kW) := Nat.mul_pos hO hK
  have htn : t.numel = O * (I * (kH * kW)) := by
    rw [Tensor.numel, hsh]
    simp [List.prod_cons, List.prod_nil, Nat.mul_assoc]
  by_cases hred : 0 < O / r ^ 2
  · rw [icnr_run r O I kH kW init t hr hsh hshape hI hred, htn]
    simp only [repeatLast, reshapeInferFirst, Tensor.numel, List.prod_cons,
      List.prod_nil, mul_one]
    rw [if_neg hdpos.ne']
    by_cases hdvd2 : O * (kH * kW) ∣ I * (O / r ^ 2 * (kH * kW * r ^ 2))
    · rw [if_pos hdvd2]
      obtain ⟨c, hc⟩ := hdvd2
      have hNc : I * (O / r ^ 2 * (kH * kW * r ^ 2)) / (O * (kH * kW)) = c := by
        rw [hc]
        exact Nat.mul_div_cancel_left c hdpos
      simp only [Option.map_some', transpose01, Tensor.numel, List.headD_cons,
        List.tail_cons, List.drop_succ_cons, List.drop_zero, List.prod_cons,
        List.prod_nil, mul_one, hNc]
      intro hcontra
      have heq : O * (c * (kH * kW)) = O * (I * (kH * kW)) :=
        Option.some.inj hcontra
      have hcI : c = I :=
        Nat.eq_of_mul_eq_mul_right hK
          (Nat.eq_of_mul_eq_mul_left hO heq)
      subst hcI
      have h2 : O / r ^ 2 * r ^ 2 * (c * (kH * kW)) = O * (c * (kH * kW)) := by
        calc O / r ^ 2 * r ^ 2 * (c * (kH * kW))
            = c * (O / r ^ 2 * (kH * kW * r ^ 2)) := by ring
          _ = O * (kH * kW) * c := hc
          _ = O * (c * (kH * kW)) := by ring
      have h3 : O / r ^ 2 * r ^ 2 = O :=
        Nat.eq_of_mul_eq_mul_right (Nat.mul_pos hI hK) h2
      exact hndvd (Dvd.intro_left _ h3)
    · rw [if_neg hdvd2]
      simp
  · have hred0 : O / r ^ 2 = 0 := Nat.eq_zero_of_not_pos hred
    rw [icnr_unfold r O I kH kW init t hr hsh hshape, hred0]
    simp [reshape3InferLast]

/-- Witness for the amended C7 at a concrete input: shape `[6, 3, 1, 1]`,
`r = 2` (`6` not divisible by `4`): here the truncated reshape happens to
succeed, so the call silently returns a tensor — one whose element count
(12) differs from the original's (18). -/
theorem icnr_nondivisible_size_mismatch_witness :
    (icnr_initialization 2 fillOnes t6).isSome = true ∧
      (icnr_initialization 2 fillOnes t6).map Tensor.numel ≠ some t6.numel :=
  ⟨by decide,
   icnr_nondivisible_size_mismatch 2 6 3 1 1 fillOnes t6 (by decide) rfl
     (by decide) (by decide) (by decide) (by decide) (fun _ => rfl)⟩

set_option maxRecDepth 40000 in
/-- Claim C5: the spec's concrete scenario: `O = 8`, `I = 3`, `kH = kW = 3`,
`r = 2`, base initializer filling output channel 0's group with `1` and output
channel 1's group with `2`; the returned tensor's channels 0-3 are all
constantly `1` and channels 4-7 all constantly `2`. -/
theorem icnr_concrete_scenario :
    icnr_initialization 2 channelFill t8 = some t8Expected := by
  decide

end Torchlayers
